import Mathlib

/-!
Shallow embedding of the Cloud Run deployment plugin
(traffic controller, revision lifecycle manager, stage executors,
strategy selector and plan-preview traffic diff), together with proofs
of the stated properties of the engine.

Machine integers of the source (int, int32 percentages and counts) are
modelled as Int or Nat; the values involved are percentages in 0..100
and list lengths, far from any overflow boundary. Remote calls are
modelled by environments that give the result of each call, and
fallible code returns Except or an explicit error component.
-/

namespace CloudRun

/-- Allocation type of a traffic target (runpb.TrafficTargetAllocationType):
either the floating latest revision or a pinned named revision. -/
inductive TrafficTargetType
  | latest
  | revision
  deriving DecidableEq, Repr

/-- A weighted traffic target (runpb.TrafficTarget): allocation type, revision
name (meaningful only for the revision type, empty otherwise) and integer
percentage. -/
structure TrafficTarget where
  type : TrafficTargetType
  revision : String
  percent : Int
  deriving DecidableEq, Repr

/-- The single-target allocation routing 100 percent of traffic to the latest
revision, as built at several places of the source. -/
def trafficLatest100 : List TrafficTarget := [⟨.latest, "", 100⟩]

/-- A platform revision (runpb.Revision): name and creation timestamp.
`none` models a nil CreateTime pointer. -/
structure Revision where
  name : String
  createTime : Option Nat
  deriving DecidableEq, Repr

/-- Creation time of a revision with a nil timestamp reading as the zero time,
mirroring the Go zero value of time.Time. -/
def timeOf (r : Revision) : Nat := r.createTime.getD 0

/-- Comparator of sortRevisionsByCreationTime (traffic.go): true when `a` was
created strictly after `b`; when either CreateTime is nil the comparator
returns false. -/
def revAfter (a b : Revision) : Bool :=
  match a.createTime, b.createTime with
  | some ta, some tb => decide (tb < ta)
  | _, _ => false

/-- sortRevisionsByCreationTime (traffic.go): sort revisions newest first by
creation time. The Go sort.Slice call is modelled by insertion sort over the
same comparator, a deterministic sort consistent with it. -/
def sortRevisionsByCreationTime (l : List Revision) : List Revision :=
  List.insertionSort (fun a b => revAfter a b = true) l

/-- The live service state the engine reads (runpb.Service): the revision name
of the template (`none` models a nil Template) and the current traffic
allocation. -/
structure ServiceState where
  templateRevision : Option String
  traffic : List TrafficTarget
  deriving DecidableEq, Repr

lemma revAfter_eq_true_iff {a b : Revision} (ha : a.createTime.isSome)
    (hb : b.createTime.isSome) : revAfter a b = true ↔ timeOf b < timeOf a := by
  obtain ⟨ta, hta⟩ := Option.isSome_iff_exists.mp ha
  obtain ⟨tb, htb⟩ := Option.isSome_iff_exists.mp hb
  simp [revAfter, timeOf, hta, htb]

/-- Newest-first order on revisions: descending creation times. -/
def revDesc (a b : Revision) : Prop := timeOf b ≤ timeOf a

lemma sorted_orderedInsert_rev (a : Revision) (l : List Revision)
    (ha : a.createTime.isSome) (hl : ∀ r ∈ l, r.createTime.isSome)
    (hs : List.Sorted revDesc l) :
    List.Sorted revDesc (List.orderedInsert (fun x y => revAfter x y = true) a l) := by
  induction l with
  | nil =>
    rw [List.orderedInsert_nil]
    exact List.sorted_singleton a
  | cons b t ih =>
    have hb : b.createTime.isSome := hl b (by simp)
    have ht : ∀ r ∈ t, r.createTime.isSome := fun r hr => hl r (by simp [hr])
    have hbt : ∀ c ∈ t, revDesc b c := List.rel_of_sorted_cons hs
    have hst : List.Sorted revDesc t := hs.of_cons
    by_cases hab : revAfter a b = true
    · simp only [List.orderedInsert, if_pos hab]
      rw [List.sorted_cons]
      refine ⟨?_, hs⟩
      intro c hc
      rw [List.mem_cons] at hc
      rcases hc with hc | hc
      · subst hc
        exact le_of_lt ((revAfter_eq_true_iff ha hb).mp hab)
      · exact le_trans (hbt c hc) (le_of_lt ((revAfter_eq_true_iff ha hb).mp hab))
    · simp only [List.orderedInsert, if_neg hab]
      rw [List.sorted_cons]
      refine ⟨?_, ih ht hst⟩
      intro c hc
      rw [List.mem_orderedInsert] at hc
      rcases hc with hc | hc
      · subst hc
        exact le_of_not_lt ((revAfter_eq_true_iff ha hb).not.mp hab)
      · exact hbt c hc

lemma sorted_sortRevisionsByCreationTime (l : List Revision)
    (h : ∀ r ∈ l, r.createTime.isSome) :
    List.Sorted revDesc (sortRevisionsByCreationTime l) := by
  induction l with
  | nil => exact List.sorted_nil
  | cons a t ih =>
    have ha : a.createTime.isSome := h a (by simp)
    have ht : ∀ r ∈ t, r.createTime.isSome := fun r hr => h r (by simp [hr])
    have hmem : ∀ r ∈ sortRevisionsByCreationTime t, r.createTime.isSome := by
      intro r hr
      exact ht r ((List.perm_insertionSort _ t).mem_iff.mp hr)
    exact sorted_orderedInsert_rev a _ ha hmem (ih ht)

lemma perm_sortRevisionsByCreationTime (l : List Revision) :
    List.Perm (sortRevisionsByCreationTime l) l :=
  List.perm_insertionSort _ l

lemma length_sortRevisionsByCreationTime (l : List Revision) :
    (sortRevisionsByCreationTime l).length = l.length :=
  (perm_sortRevisionsByCreationTime l).length_eq

/-- The second element of the newest-first sorted revision list is the
second-newest revision by creation time: exactly one revision of the input is
strictly newer than it. -/
lemma second_newest_of_sortRevs (l : List Revision)
    (hsome : ∀ r ∈ l, r.createTime.isSome) (hnd : (l.map timeOf).Nodup)
    (x y : Revision) (rest : List Revision)
    (h : sortRevisionsByCreationTime l = x :: y :: rest) :
    y ∈ l ∧ l.countP (fun r => decide (timeOf y < timeOf r)) = 1 := by
  have hperm := perm_sortRevisionsByCreationTime l
  have hs := sorted_sortRevisionsByCreationTime l hsome
  rw [h] at hperm hs
  have hy : y ∈ l := hperm.mem_iff.mp (by simp)
  refine ⟨hy, ?_⟩
  have hcount := hperm.countP_eq (fun r => decide (timeOf y < timeOf r))
  rw [← hcount]
  have hndx : ((x :: y :: rest).map timeOf).Nodup := ((hperm.map timeOf).nodup_iff).mpr hnd
  rw [List.sorted_cons] at hs
  have hxy_le : timeOf y ≤ timeOf x := hs.1 y (by simp)
  have hxy_ne : timeOf x ≠ timeOf y := by
    simp only [List.map_cons, List.nodup_cons, List.mem_cons, List.mem_map] at hndx
    intro he
    exact hndx.1 (Or.inl he)
  have hxy : timeOf y < timeOf x := lt_of_le_of_ne hxy_le (Ne.symm hxy_ne)
  have hrest : ∀ r ∈ rest, ¬ timeOf y < timeOf r := by
    intro r hr
    have := List.rel_of_sorted_cons hs.2 r hr
    exact not_lt_of_le this
  rw [List.countP_cons, List.countP_cons]
  have h1 : (decide (timeOf y < timeOf x) : Bool) = true := by simp [hxy]
  have h2 : (decide (timeOf y < timeOf y) : Bool) = false := by simp
  have h3 : rest.countP (fun r => decide (timeOf y < timeOf r)) = 0 := by
    rw [List.countP_eq_zero]
    intro r hr
    simp [hrest r hr]
  rw [h1, h2, h3]
  simp

/-- The traffic split Promote computes for a percentage below 100 (traffic.go):
with fewer than two revisions it falls back to the single latest target at 100;
otherwise it pairs the latest target at the requested percentage with the
second entry of the newest-first sorted list at the remainder. -/
def promoteSplitTraffic (revisions : List Revision) (percent : Int) :
    List TrafficTarget :=
  if revisions.length < 2 then trafficLatest100
  else
    match sortRevisionsByCreationTime revisions with
    | _ :: prev :: _ =>
      [⟨.latest, "", percent⟩, ⟨.revision, prev.name, 100 - percent⟩]
    | _ => trafficLatest100

/-- TrafficManager.Promote (traffic.go) over the results of its remote calls:
validate the percentage, get the service, compute the allocation (listing
revisions only when the percentage is below 100) and update traffic. Returns
the call result together with the allocation passed to UpdateTraffic, when the
write is reached. -/
def PromoteCall (getService : Except String ServiceState)
    (listRevisions : Except String (List Revision))
    (updateTraffic : List TrafficTarget → Except String Unit)
    (percent : Int) : Except String Unit × Option (List TrafficTarget) :=
  if percent < 0 ∨ percent > 100 then
    (.error ("invalid traffic percentage: " ++ toString percent ++
      " (must be 0-100)"), none)
  else
    match getService with
    | .error e => (.error ("failed to get service: " ++ e), none)
    | .ok _ =>
      if percent = 100 then
        (updateTraffic trafficLatest100, some trafficLatest100)
      else
        match listRevisions with
        | .error e => (.error ("failed to list revisions: " ++ e), none)
        | .ok revisions =>
          let t := promoteSplitTraffic revisions percent
          (updateTraffic t, some t)

/-- C1: for every promote percentage p in [0,100], with fewer than two
revisions the allocation Promote writes is the single target latest:100
regardless of p; with at least two revisions and p < 100 the written
allocation is exactly the two targets latest at p and the second-newest
revision by creation time at 100 - p, so the weights sum to exactly 100 and
the non-latest target names the second-newest revision. -/
theorem promote_allocation_spec (svc : ServiceState) (revisions : List Revision)
    (upd : List TrafficTarget → Except String Unit) (p : Int)
    (hp0 : 0 ≤ p) (hp1 : p ≤ 100)
    (hsome : ∀ r ∈ revisions, r.createTime.isSome)
    (hnd : (revisions.map timeOf).Nodup) :
    (revisions.length < 2 →
      (PromoteCall (.ok svc) (.ok revisions) upd p).2 = some trafficLatest100) ∧
    (2 ≤ revisions.length → p < 100 →
      ∃ prev,
        (PromoteCall (.ok svc) (.ok revisions) upd p).2 =
          some [⟨.latest, "", p⟩, ⟨.revision, prev.name, 100 - p⟩] ∧
        (([⟨.latest, "", p⟩, ⟨.revision, prev.name, 100 - p⟩] :
          List TrafficTarget).map TrafficTarget.percent).sum = 100 ∧
        prev ∈ revisions ∧
        revisions.countP (fun r => decide (timeOf prev < timeOf r)) = 1) := by
  have hrange : ¬ (p < 0 ∨ p > 100) := by omega
  constructor
  · intro hlen
    by_cases hp : p = 100
    · simp [PromoteCall, hrange, hp]
    · simp [PromoteCall, hrange, hp, promoteSplitTraffic, hlen]
  · intro hlen hplt
    have hp : ¬ p = 100 := by omega
    have hlen2 : 2 ≤ (sortRevisionsByCreationTime revisions).length := by
      rw [length_sortRevisionsByCreationTime]
      exact hlen
    rcases hsort : sortRevisionsByCreationTime revisions with _ | ⟨x, t2⟩
    · rw [hsort] at hlen2
      simp at hlen2
    rcases t2 with _ | ⟨y, rest⟩
    · rw [hsort] at hlen2
      simp at hlen2
    have hsec := second_newest_of_sortRevs revisions hsome hnd x y rest hsort
    refine ⟨y, ?_, ?_, hsec.1, hsec.2⟩
    · have hnlt : ¬ revisions.length < 2 := by omega
      simp [PromoteCall, hrange, hp, promoteSplitTraffic, hnlt, hsort]
    · simp

/-- Witness for C1 at a concrete input: two revisions, percent 10. -/
theorem promote_allocation_spec_witness :
    ∃ prev,
      (PromoteCall (.ok ⟨some "rev-2", trafficLatest100⟩)
        (.ok [⟨"rev-1", some 1⟩, ⟨"rev-2", some 2⟩])
        (fun _ => .ok ()) 10).2 =
        some [⟨.latest, "", 10⟩, ⟨.revision, prev.name, 100 - 10⟩] ∧
      (([⟨.latest, "", 10⟩, ⟨.revision, prev.name, 100 - 10⟩] :
        List TrafficTarget).map TrafficTarget.percent).sum = 100 ∧
      prev ∈ [(⟨"rev-1", some 1⟩ : Revision), ⟨"rev-2", some 2⟩] ∧
      List.countP (fun r => decide (timeOf prev < timeOf r))
        [(⟨"rev-1", some 1⟩ : Revision), ⟨"rev-2", some 2⟩] = 1 :=
  (promote_allocation_spec ⟨some "rev-2", trafficLatest100⟩
    [⟨"rev-1", some 1⟩, ⟨"rev-2", some 2⟩] (fun _ => .ok ()) 10
    (by decide) (by decide) (by decide) (by decide)).2 (by decide) (by decide)

/-- One key update of a Go map modelled as an association list: replace the
value of an existing key in place, append a new key at the end. -/
def upsert : List (String × Int) → String → Int → List (String × Int)
  | [], k, v => [(k, v)]
  | (k0, v0) :: rest, k, v =>
    if k0 = k then (k, v) :: rest else (k0, v0) :: upsert rest k v

/-- Association-list lookup, first match wins. -/
def alistLookup : List (String × Int) → String → Option Int
  | [], _ => none
  | (k0, v) :: rest, k => if k0 = k then some v else alistLookup rest k

/-- Go map indexing: a missing key reads as the zero value 0. -/
def alistGetD (m : List (String × Int)) (k : String) : Int :=
  (alistLookup m k).getD 0

/-- The traffic map of RevisionManager.ListRevisions (revision.go): a latest
target is keyed by the template revision name, a revision target by its
revision name. -/
def buildTrafficMap (latestRevision : String) (traffic : List TrafficTarget) :
    List (String × Int) :=
  traffic.foldl
    (fun m t =>
      match t.type with
      | .latest => upsert m latestRevision t.percent
      | .revision => upsert m t.revision t.percent)
    []

/-- RevisionInfo (revision.go): a platform revision annotated with its current
traffic share and whether it is the template (latest) revision. -/
structure RevisionInfo where
  name : String
  createdAt : Nat
  trafficPercent : Int
  isLatest : Bool
  deriving DecidableEq, Repr

/-- buildRevisionInfo (revision.go): a nil CreateTime leaves the zero time. -/
def buildRevisionInfo (latestRevision : String)
    (trafficMap : List (String × Int)) (rev : Revision) : RevisionInfo :=
  { name := rev.name
    createdAt := rev.createTime.getD 0
    trafficPercent := alistGetD trafficMap rev.name
    isLatest := rev.name == latestRevision }

/-- The newest-first sort of annotated revisions (revision.go ListRevisions),
again modelling the Go sort.Slice call by insertion sort over the same
comparator. -/
def sortRevisionInfos (l : List RevisionInfo) : List RevisionInfo :=
  List.insertionSort (fun a b => b.createdAt < a.createdAt) l

/-- RevisionManager.ListRevisions (revision.go) on in-memory state: annotate
each platform revision with its traffic share and latest flag, then sort
newest first by creation time. -/
def listRevisionInfos (revisions : List Revision) (svc : ServiceState) :
    List RevisionInfo :=
  let latestRevision := svc.templateRevision.getD ""
  let trafficMap := buildTrafficMap latestRevision svc.traffic
  sortRevisionInfos (revisions.map (buildRevisionInfo latestRevision trafficMap))

/-- Newest-first order on annotated revisions. -/
def infoDesc (a b : RevisionInfo) : Prop := b.createdAt ≤ a.createdAt

lemma sorted_orderedInsert_info (a : RevisionInfo) (l : List RevisionInfo)
    (hs : List.Sorted infoDesc l) :
    List.Sorted infoDesc
      (List.orderedInsert (fun x y => y.createdAt < x.createdAt) a l) := by
  induction l with
  | nil =>
    rw [List.orderedInsert_nil]
    exact List.sorted_singleton a
  | cons b t ih =>
    have hbt : ∀ c ∈ t, infoDesc b c := List.rel_of_sorted_cons hs
    have hst : List.Sorted infoDesc t := hs.of_cons
    by_cases hab : b.createdAt < a.createdAt
    · simp only [List.orderedInsert, if_pos hab]
      rw [List.sorted_cons]
      refine ⟨?_, hs⟩
      intro c hc
      rw [List.mem_cons] at hc
      rcases hc with hc | hc
      · subst hc
        exact le_of_lt hab
      · exact le_trans (hbt c hc) (le_of_lt hab)
    · simp only [List.orderedInsert, if_neg hab]
      rw [List.sorted_cons]
      refine ⟨?_, ih hst⟩
      intro c hc
      rw [List.mem_orderedInsert] at hc
      rcases hc with hc | hc
      · subst hc
        exact le_of_not_lt hab
      · exact hbt c hc

lemma sorted_sortRevisionInfos (l : List RevisionInfo) :
    List.Sorted infoDesc (sortRevisionInfos l) := by
  induction l with
  | nil => exact List.sorted_nil
  | cons a t ih => exact sorted_orderedInsert_info a _ ih

lemma perm_sortRevisionInfos (l : List RevisionInfo) :
    List.Perm (sortRevisionInfos l) l :=
  List.perm_insertionSort _ l

lemma length_sortRevisionInfos (l : List RevisionInfo) :
    (sortRevisionInfos l).length = l.length :=
  (perm_sortRevisionInfos l).length_eq

lemma length_listRevisionInfos (revisions : List Revision) (svc : ServiceState) :
    (listRevisionInfos revisions svc).length = revisions.length := by
  rw [listRevisionInfos]
  rw [length_sortRevisionInfos, List.length_map]

/-- The second element of the newest-first annotated list is the second-newest
entry: exactly one entry of the input is strictly newer than it. -/
lemma second_newest_of_sortInfos (l : List RevisionInfo)
    (hnd : (l.map RevisionInfo.createdAt).Nodup)
    (x y : RevisionInfo) (rest : List RevisionInfo)
    (h : sortRevisionInfos l = x :: y :: rest) :
    y ∈ l ∧ l.countP (fun r => decide (y.createdAt < r.createdAt)) = 1 := by
  have hperm := perm_sortRevisionInfos l
  have hs := sorted_sortRevisionInfos l
  rw [h] at hperm hs
  have hy : y ∈ l := hperm.mem_iff.mp (by simp)
  refine ⟨hy, ?_⟩
  rw [← hperm.countP_eq (fun r => decide (y.createdAt < r.createdAt))]
  have hndx : ((x :: y :: rest).map RevisionInfo.createdAt).Nodup :=
    ((hperm.map RevisionInfo.createdAt).nodup_iff).mpr hnd
  rw [List.sorted_cons] at hs
  have hxy_le : y.createdAt ≤ x.createdAt := hs.1 y (by simp)
  have hxy_ne : x.createdAt ≠ y.createdAt := by
    simp only [List.map_cons, List.nodup_cons, List.mem_cons, List.mem_map] at hndx
    intro he
    exact hndx.1 (Or.inl he)
  have hxy : y.createdAt < x.createdAt := lt_of_le_of_ne hxy_le (Ne.symm hxy_ne)
  have hrest : ∀ r ∈ rest, ¬ y.createdAt < r.createdAt := by
    intro r hr
    exact not_lt_of_le (List.rel_of_sorted_cons hs.2 r hr)
  rw [List.countP_cons, List.countP_cons]
  have h1 : (decide (y.createdAt < x.createdAt) : Bool) = true := by simp [hxy]
  have h2 : (decide (y.createdAt < y.createdAt) : Bool) = false := by simp
  have h3 : rest.countP (fun r => decide (y.createdAt < r.createdAt)) = 0 := by
    rw [List.countP_eq_zero]
    intro r hr
    simp [hrest r hr]
  rw [h1, h2, h3]
  simp

/-- The delete loop of CleanupOldRevisions (revision.go), tracking the names
whose delete call is issued together with the first delete failure: entries
below index keepCount are kept, the latest revision is kept when keepLatest is
set, only zero-traffic revisions are deleted, and the first delete failure
stops the loop with an error. -/
def cleanupLoop (d : String → Except String Unit) (keepCount : Nat)
    (keepLatest : Bool) (latestRevision : String) :
    Nat → List RevisionInfo → List String × Option String
  | _, [] => ([], none)
  | i, rev :: rest =>
    if i < keepCount then
      cleanupLoop d keepCount keepLatest latestRevision (i + 1) rest
    else if keepLatest ∧ rev.name = latestRevision then
      cleanupLoop d keepCount keepLatest latestRevision (i + 1) rest
    else if rev.trafficPercent = 0 then
      match d rev.name with
      | .error e =>
        ([rev.name], some ("failed to delete revision " ++ rev.name ++ ": " ++ e))
      | .ok _ =>
        let r := cleanupLoop d keepCount keepLatest latestRevision (i + 1) rest
        (rev.name :: r.1, r.2)
    else
      cleanupLoop d keepCount keepLatest latestRevision (i + 1) rest

/-- The names the cleanup loop would try to delete, in loop order: past the
keepCount window, not the protected latest revision, zero traffic. -/
def eligibleForDeletion (keepCount : Nat) (keepLatest : Bool)
    (latestRevision : String) : Nat → List RevisionInfo → List String
  | _, [] => []
  | i, rev :: rest =>
    if i < keepCount then
      eligibleForDeletion keepCount keepLatest latestRevision (i + 1) rest
    else if keepLatest ∧ rev.name = latestRevision then
      eligibleForDeletion keepCount keepLatest latestRevision (i + 1) rest
    else if rev.trafficPercent = 0 then
      rev.name :: eligibleForDeletion keepCount keepLatest latestRevision (i + 1) rest
    else
      eligibleForDeletion keepCount keepLatest latestRevision (i + 1) rest

/-- Issue delete calls in order, stopping at the first failure. -/
def processDeletes (d : String → Except String Unit) :
    List String → List String × Option String
  | [] => ([], none)
  | n :: rest =>
    match d n with
    | .error e => ([n], some ("failed to delete revision " ++ n ++ ": " ++ e))
    | .ok _ =>
      let r := processDeletes d rest
      (n :: r.1, r.2)

/-- RevisionManager.CleanupOldRevisions (revision.go) on in-memory state: list
and annotate the revisions, return early when no more than keepCount exist,
otherwise run the delete loop from index 0. Returns the issued deletions and
the error of the run, if any. -/
def cleanupOldRevisions (revisions : List Revision) (svc : ServiceState)
    (keepCount : Nat) (keepLatest : Bool)
    (d : String → Except String Unit) : List String × Option String :=
  let infos := listRevisionInfos revisions svc
  if infos.length ≤ keepCount then ([], none)
  else cleanupLoop d keepCount keepLatest (svc.templateRevision.getD "") 0 infos

lemma cleanupLoop_eq_processDeletes (d : String → Except String Unit)
    (keepCount : Nat) (keepLatest : Bool) (latestRevision : String) :
    ∀ l i, cleanupLoop d keepCount keepLatest latestRevision i l =
      processDeletes d (eligibleForDeletion keepCount keepLatest latestRevision i l) := by
  intro l
  induction l with
  | nil => intro i; rfl
  | cons rev rest ih =>
    intro i
    by_cases h1 : i < keepCount
    · simp only [cleanupLoop, eligibleForDeletion, if_pos h1]
      exact ih (i + 1)
    · by_cases h2 : keepLatest ∧ rev.name = latestRevision
      · simp only [cleanupLoop, eligibleForDeletion, if_neg h1, if_pos h2]
        exact ih (i + 1)
      · by_cases h3 : rev.trafficPercent = 0
        · simp only [cleanupLoop, eligibleForDeletion, if_neg h1, if_neg h2,
            if_pos h3, processDeletes]
          cases d rev.name with
          | error e => rfl
          | ok u => simp [ih (i + 1)]
        · simp only [cleanupLoop, eligibleForDeletion, if_neg h1, if_neg h2,
            if_neg h3]
          exact ih (i + 1)

lemma mem_eligibleForDeletion (keepCount : Nat) (keepLatest : Bool)
    (latestRevision : String) :
    ∀ l i n, n ∈ eligibleForDeletion keepCount keepLatest latestRevision i l →
      ∃ rev ∈ l, rev.name = n ∧ rev.trafficPercent = 0 ∧
        (keepLatest = true → n ≠ latestRevision) := by
  intro l
  induction l with
  | nil => intro i n h; simp [eligibleForDeletion] at h
  | cons rev rest ih =>
    intro i n h
    by_cases h1 : i < keepCount
    · rw [eligibleForDeletion, if_pos h1] at h
      obtain ⟨r, hr, hprops⟩ := ih (i + 1) n h
      exact ⟨r, by simp [hr], hprops⟩
    · by_cases h2 : keepLatest ∧ rev.name = latestRevision
      · rw [eligibleForDeletion, if_neg h1, if_pos h2] at h
        obtain ⟨r, hr, hprops⟩ := ih (i + 1) n h
        exact ⟨r, by simp [hr], hprops⟩
      · by_cases h3 : rev.trafficPercent = 0
        · rw [eligibleForDeletion, if_neg h1, if_neg h2, if_pos h3] at h
          rw [List.mem_cons] at h
          rcases h with h | h
          · subst h
            refine ⟨rev, by simp, rfl, h3, ?_⟩
            intro hkl hne
            exact h2 ⟨hkl, hne⟩
          · obtain ⟨r, hr, hprops⟩ := ih (i + 1) n h
            exact ⟨r, by simp [hr], hprops⟩
        · rw [eligibleForDeletion, if_neg h1, if_neg h2, if_neg h3] at h
          obtain ⟨r, hr, hprops⟩ := ih (i + 1) n h
          exact ⟨r, by simp [hr], hprops⟩

lemma length_eligibleForDeletion (keepCount : Nat) (keepLatest : Bool)
    (latestRevision : String) :
    ∀ l i, (eligibleForDeletion keepCount keepLatest latestRevision i l).length ≤
      l.length - (keepCount - i) := by
  intro l
  induction l with
  | nil => intro i; simp [eligibleForDeletion]
  | cons rev rest ih =>
    intro i
    have hrec := ih (i + 1)
    by_cases h1 : i < keepCount
    · rw [eligibleForDeletion, if_pos h1]
      simp only [List.length_cons]
      omega
    · by_cases h2 : keepLatest ∧ rev.name = latestRevision
      · rw [eligibleForDeletion, if_neg h1, if_pos h2]
        simp only [List.length_cons]
        omega
      · by_cases h3 : rev.trafficPercent = 0
        · rw [eligibleForDeletion, if_neg h1, if_neg h2, if_pos h3]
          simp only [List.length_cons]
          omega
        · rw [eligibleForDeletion, if_neg h1, if_neg h2, if_neg h3]
          simp only [List.length_cons]
          omega

lemma processDeletes_subset (d : String → Except String Unit) :
    ∀ names n, n ∈ (processDeletes d names).1 → n ∈ names := by
  intro names
  induction names with
  | nil => intro n h; simp [processDeletes] at h
  | cons m rest ih =>
    intro n h
    rw [processDeletes] at h
    cases hd : d m with
    | error e =>
      rw [hd] at h
      simp at h
      simp [h]
    | ok u =>
      rw [hd] at h
      simp at h
      rcases h with h | h
      · simp [h]
      · simp [ih n h]

lemma processDeletes_length (d : String → Except String Unit) :
    ∀ names, (processDeletes d names).1.length ≤ names.length := by
  intro names
  induction names with
  | nil => simp [processDeletes]
  | cons m rest ih =>
    rw [processDeletes]
    cases hd : d m with
    | error e => simp
    | ok u =>
      simp only [List.length_cons]
      simpa using ih

/-- C2: cleanup never issues a delete for a revision carrying nonzero traffic
(the traffic share read from the current allocation of the service), and never
issues more than the number of revisions minus keepCount deletions in one
invocation. -/
theorem cleanup_safety (revisions : List Revision) (svc : ServiceState)
    (keepCount : Nat) (keepLatest : Bool) (d : String → Except String Unit) :
    (∀ n ∈ (cleanupOldRevisions revisions svc keepCount keepLatest d).1,
      alistGetD (buildTrafficMap (svc.templateRevision.getD "") svc.traffic) n = 0) ∧
    (cleanupOldRevisions revisions svc keepCount keepLatest d).1.length ≤
      revisions.length - keepCount := by
  by_cases hle : (listRevisionInfos revisions svc).length ≤ keepCount
  · constructor
    · intro n hn
      rw [cleanupOldRevisions] at hn
      simp only [if_pos hle] at hn
      simp at hn
    · rw [cleanupOldRevisions]
      simp [if_pos hle]
  · have hrun : cleanupOldRevisions revisions svc keepCount keepLatest d =
        cleanupLoop d keepCount keepLatest (svc.templateRevision.getD "") 0
          (listRevisionInfos revisions svc) := by
      rw [cleanupOldRevisions]
      simp [if_neg hle]
    rw [hrun, cleanupLoop_eq_processDeletes]
    constructor
    · intro n hn
      have hel := processDeletes_subset d _ n hn
      obtain ⟨info, hinfo, hname, hzero, _⟩ :=
        mem_eligibleForDeletion keepCount keepLatest _ _ 0 n hel
      have hmem : info ∈ (revisions.map (buildRevisionInfo
          (svc.templateRevision.getD "")
          (buildTrafficMap (svc.templateRevision.getD "") svc.traffic))) := by
        have := (perm_sortRevisionInfos _).mem_iff.mp
          (by simpa [listRevisionInfos] using hinfo)
        exact this
      rw [List.mem_map] at hmem
      obtain ⟨rev, _, hbe⟩ := hmem
      rw [← hbe] at hname hzero
      simp only [buildRevisionInfo] at hname hzero
      rw [← hname]
      exact hzero
    · calc (processDeletes d _).1.length
          ≤ (eligibleForDeletion keepCount keepLatest
              (svc.templateRevision.getD "") 0
              (listRevisionInfos revisions svc)).length :=
            processDeletes_length d _
        _ ≤ (listRevisionInfos revisions svc).length - (keepCount - 0) :=
            length_eligibleForDeletion keepCount keepLatest _ _ 0
        _ ≤ revisions.length - keepCount := by
            rw [length_listRevisionInfos]
            omega

/-- Witness for C2: three revisions, keepCount 1, one old revision carrying
traffic, one deletable. -/
theorem cleanup_safety_witness :
    (∀ n ∈ (cleanupOldRevisions
        [⟨"rev-1", some 1⟩, ⟨"rev-2", some 2⟩, ⟨"rev-3", some 3⟩]
        ⟨some "rev-3", [⟨.latest, "", 50⟩, ⟨.revision, "rev-2", 50⟩]⟩
        1 true (fun _ => .ok ())).1,
      alistGetD (buildTrafficMap "rev-3"
        [⟨.latest, "", 50⟩, ⟨.revision, "rev-2", 50⟩]) n = 0) ∧
    (cleanupOldRevisions
        [⟨"rev-1", some 1⟩, ⟨"rev-2", some 2⟩, ⟨"rev-3", some 3⟩]
        ⟨some "rev-3", [⟨.latest, "", 50⟩, ⟨.revision, "rev-2", 50⟩]⟩
        1 true (fun _ => .ok ())).1.length ≤ 3 - 1 :=
  cleanup_safety [⟨"rev-1", some 1⟩, ⟨"rev-2", some 2⟩, ⟨"rev-3", some 3⟩]
    ⟨some "rev-3", [⟨.latest, "", 50⟩, ⟨.revision, "rev-2", 50⟩]⟩
    1 true (fun _ => .ok ())

/-- C3: with keepLatest set, cleanup never issues a delete for the revision
currently referenced as the template revision of the service, whatever its
position and traffic share. -/
theorem cleanup_keeps_template_revision (revisions : List Revision)
    (svc : ServiceState) (keepCount : Nat) (d : String → Except String Unit)
    (name : String) (h : svc.templateRevision = some name) :
    name ∉ (cleanupOldRevisions revisions svc keepCount true d).1 := by
  intro hn
  by_cases hle : (listRevisionInfos revisions svc).length ≤ keepCount
  · rw [cleanupOldRevisions] at hn
    simp only [if_pos hle] at hn
    simp at hn
  · have hrun : cleanupOldRevisions revisions svc keepCount true d =
        cleanupLoop d keepCount true (svc.templateRevision.getD "") 0
          (listRevisionInfos revisions svc) := by
      rw [cleanupOldRevisions]
      simp [if_neg hle]
    rw [hrun, cleanupLoop_eq_processDeletes] at hn
    have hel := processDeletes_subset d _ name hn
    obtain ⟨rev, _, _, _, hprot⟩ :=
      mem_eligibleForDeletion keepCount true _ _ 0 name hel
    have hne : name ≠ svc.templateRevision.getD "" := hprot rfl
    rw [h] at hne
    simp at hne

/-- Witness for C3: the template revision is the oldest revision, outside a
keepCount window of 1 and carrying zero traffic, yet it is not deleted while
its zero-traffic neighbour is. -/
theorem cleanup_keeps_template_revision_witness :
    "rev-1" ∉ (cleanupOldRevisions
      [⟨"rev-1", some 1⟩, ⟨"rev-2", some 2⟩, ⟨"rev-3", some 3⟩]
      ⟨some "rev-1", [⟨.revision, "rev-3", 100⟩]⟩
      1 true (fun _ => .ok ())).1 :=
  cleanup_keeps_template_revision
    [⟨"rev-1", some 1⟩, ⟨"rev-2", some 2⟩, ⟨"rev-3", some 3⟩]
    ⟨some "rev-1", [⟨.revision, "rev-3", 100⟩]⟩ 1 (fun _ => .ok ()) "rev-1" rfl

lemma processDeletes_all_ok (d : String → Except String Unit) :
    ∀ names, (∀ n ∈ names, d n = .ok ()) →
      (processDeletes d names).2 = none := by
  intro names
  induction names with
  | nil => intro _; rfl
  | cons m rest ih =>
    intro hok
    rw [processDeletes]
    have hm : d m = .ok () := hok m (by simp)
    rw [hm]
    exact ih (fun n hn => hok n (by simp [hn]))

lemma processDeletes_error_char (d : String → Except String Unit) :
    ∀ names err, (processDeletes d names).2 = some err →
      ∃ pre n e, (processDeletes d names).1 = pre ++ [n] ∧ d n = .error e ∧
        (∀ m ∈ pre, d m = .ok ()) ∧
        err = "failed to delete revision " ++ n ++ ": " ++ e := by
  intro names
  induction names with
  | nil => intro err h; simp [processDeletes] at h
  | cons m rest ih =>
    intro err h
    rw [processDeletes] at h
    cases hd : d m with
    | error e =>
      rw [hd] at h
      simp at h
      refine ⟨[], m, e, ?_, hd, by simp, h.symm⟩
      rw [processDeletes, hd]
      simp
    | ok u =>
      rw [hd] at h
      simp at h
      obtain ⟨pre, n, e, h1, h2, h3, h4⟩ := ih err h
      refine ⟨m :: pre, n, e, ?_, h2, ?_, h4⟩
      · rw [processDeletes, hd]
        simp [h1]
      · intro m2 hm2
        rw [List.mem_cons] at hm2
        rcases hm2 with hm2 | hm2
        · subst hm2
          cases u
          exact hd
        · exact h3 m2 hm2

/-- Stage execution status (the SDK StageStatusSuccess / StageStatusFailure). -/
inductive StageStatus
  | success
  | failure
  deriving DecidableEq, Repr

/-- SyncStageConfig (stages.go). -/
structure SyncStageCfg where
  skipTrafficShift : Bool
  prune : Bool
  deriving DecidableEq, Repr

/-- The manifest fields the sync stage consults for service-name resolution:
the app label of the template, `none` when template, labels or the key are
absent. Other manifest content does not influence the modelled outcome. -/
structure ManifestService where
  templateAppLabel : Option String
  deriving DecidableEq, Repr

/-- The deployed service returned by CreateOrUpdateService. -/
structure DeployResult where
  templateRevision : String
  uri : String
  deriving DecidableEq, Repr

/-- Service-name resolution of the sync stage (stage_sync.go): the configured
input name, or the app label of the manifest template, or empty. -/
def resolveServiceName (inputServiceName : String) (m : ManifestService) :
    String :=
  if inputServiceName ≠ "" then inputServiceName
  else m.templateAppLabel.getD ""

/-- CleanupOldRevisions including the fallible list and get remote calls it
performs first (revision.go): an error of either aborts with that error and no
deletions. -/
def cleanupOldRevisionsCall (revisionsRes : Except String (List Revision))
    (serviceRes : Except String ServiceState) (keepCount : Nat)
    (keepLatest : Bool) (d : String → Except String Unit) :
    List String × Option String :=
  match revisionsRes with
  | .error e => ([], some e)
  | .ok revs =>
    match serviceRes with
    | .error e => ([], some e)
    | .ok svc => cleanupOldRevisions revs svc keepCount keepLatest d

/-- Results of the host and remote calls the sync stage makes, in program
order. Reading and parsing the manifest are collapsed into one fallible step,
as both abort the stage identically. -/
structure SyncEnv where
  parseConfig : Except String SyncStageCfg
  hasDeployTarget : Bool
  clientCreate : Except String Unit
  readManifest : Except String ManifestService
  inputServiceName : String
  getService : Except String ServiceState
  createOrUpdate : List TrafficTarget → Except String DeployResult
  waitReady : Except String Unit
  cleanupRevisions : Except String (List Revision)
  cleanupService : Except String ServiceState
  deleteRev : String → Except String Unit

/-- Observable outcome of the sync stage: status, the traffic allocation
passed to CreateOrUpdateService when that call is reached, and the revisions
deleted by the best-effort prune. -/
structure SyncOutcome where
  status : StageStatus
  appliedTraffic : Option (List TrafficTarget)
  prunedRevisions : List String
  deriving DecidableEq, Repr

/-- ExecuteSyncStage (stage_sync.go): parse the stage config, require a deploy
target, create the client, load the manifest, resolve the service name, probe
the live service (any probe failure selects the create path), decide the
traffic allocation, deploy, wait for readiness, and when prune is set run
cleanup with keepCount 5 and keepLatest true, ignoring its error. -/
def executeSyncStage (env : SyncEnv) : SyncOutcome :=
  match env.parseConfig with
  | .error _ => ⟨.failure, none, []⟩
  | .ok stageCfg =>
    if !env.hasDeployTarget then ⟨.failure, none, []⟩
    else
      match env.clientCreate with
      | .error _ => ⟨.failure, none, []⟩
      | .ok _ =>
        match env.readManifest with
        | .error _ => ⟨.failure, none, []⟩
        | .ok manifest =>
          if resolveServiceName env.inputServiceName manifest = "" then
            ⟨.failure, none, []⟩
          else
            let existingSvc :=
              match env.getService with
              | .ok svc => some svc
              | .error _ => none
            let traffic :=
              match existingSvc with
              | some svc =>
                if stageCfg.skipTrafficShift then svc.traffic
                else trafficLatest100
              | none => trafficLatest100
            match env.createOrUpdate traffic with
            | .error _ => ⟨.failure, some traffic, []⟩
            | .ok _ =>
              match env.waitReady with
              | .error _ => ⟨.failure, some traffic, []⟩
              | .ok _ =>
                if stageCfg.prune then
                  let pruned := cleanupOldRevisionsCall env.cleanupRevisions
                    env.cleanupService 5 true env.deleteRev
                  ⟨.success, some traffic, pruned.1⟩
                else ⟨.success, some traffic, []⟩

/-- C4: the sync stage decides the applied traffic allocation by a three-way
rule: probe failure (no live service) forces 100 percent to latest; a live
service with skipTrafficShift carries the existing allocation forward
unchanged; a live service without skipTrafficShift forces 100 percent to
latest, discarding any prior split. -/
theorem sync_traffic_three_way (env : SyncEnv) (cfg : SyncStageCfg)
    (m : ManifestService) (hp : env.parseConfig = .ok cfg)
    (ht : env.hasDeployTarget = true) (hc : env.clientCreate = .ok ())
    (hm : env.readManifest = .ok m)
    (hn : resolveServiceName env.inputServiceName m ≠ "") :
    (∀ e, env.getService = .error e →
      (executeSyncStage env).appliedTraffic = some trafficLatest100) ∧
    (∀ svc, env.getService = .ok svc → cfg.skipTrafficShift = true →
      (executeSyncStage env).appliedTraffic = some svc.traffic) ∧
    (∀ svc, env.getService = .ok svc → cfg.skipTrafficShift = false →
      (executeSyncStage env).appliedTraffic = some trafficLatest100) := by
  refine ⟨?_, ?_, ?_⟩
  · intro e hg
    rw [executeSyncStage, hp, ht, hc, hm]
    simp only [Bool.not_true, Bool.false_eq_true, if_false, if_neg hn, hg]
    cases env.createOrUpdate trafficLatest100 with
    | error _ => rfl
    | ok r =>
      cases env.waitReady with
      | error _ => rfl
      | ok _ =>
        by_cases hpr : cfg.prune
        · simp [hpr]
        · simp [hpr]
  · intro svc hg hskip
    rw [executeSyncStage, hp, ht, hc, hm]
    simp only [Bool.not_true, Bool.false_eq_true, if_false, if_neg hn, hg, hskip]
    simp only [if_true]
    cases env.createOrUpdate svc.traffic with
    | error _ => rfl
    | ok r =>
      cases env.waitReady with
      | error _ => rfl
      | ok _ =>
        by_cases hpr : cfg.prune
        · simp [hpr]
        · simp [hpr]
  · intro svc hg hskip
    rw [executeSyncStage, hp, ht, hc, hm]
    simp only [Bool.not_true, Bool.false_eq_true, if_false, if_neg hn, hg, hskip]
    cases env.createOrUpdate trafficLatest100 with
    | error _ => rfl
    | ok r =>
      cases env.waitReady with
      | error _ => rfl
      | ok _ =>
        by_cases hpr : cfg.prune
        · simp [hpr]
        · simp [hpr]

/-- Witness for C4 at a concrete environment: a live service with a 30/70
split and skipTrafficShift set is carried forward unchanged. -/
theorem sync_traffic_three_way_witness :
    (executeSyncStage
      { parseConfig := .ok ⟨true, false⟩
        hasDeployTarget := true
        clientCreate := .ok ()
        readManifest := .ok ⟨some "app"⟩
        inputServiceName := "svc"
        getService := .ok ⟨some "rev-2",
          [⟨.latest, "", 30⟩, ⟨.revision, "rev-1", 70⟩]⟩
        createOrUpdate := fun _ => .ok ⟨"rev-3", "url"⟩
        waitReady := .ok ()
        cleanupRevisions := .ok []
        cleanupService := .ok ⟨none, []⟩
        deleteRev := fun _ => .ok () }).appliedTraffic =
      some [⟨.latest, "", 30⟩, ⟨.revision, "rev-1", 70⟩] :=
  (sync_traffic_three_way
    { parseConfig := .ok ⟨true, false⟩
      hasDeployTarget := true
      clientCreate := .ok ()
      readManifest := .ok ⟨some "app"⟩
      inputServiceName := "svc"
      getService := .ok ⟨some "rev-2",
        [⟨.latest, "", 30⟩, ⟨.revision, "rev-1", 70⟩]⟩
      createOrUpdate := fun _ => .ok ⟨"rev-3", "url"⟩
      waitReady := .ok ()
      cleanupRevisions := .ok []
      cleanupService := .ok ⟨none, []⟩
      deleteRev := fun _ => .ok () }
    ⟨true, false⟩ ⟨some "app"⟩ rfl rfl rfl rfl (by decide)).2.1
    ⟨some "rev-2", [⟨.latest, "", 30⟩, ⟨.revision, "rev-1", 70⟩]⟩ rfl rfl

/-- C10: every failure of the initial GetService probe of the sync stage, not
only not-found, selects the create path: the stage still succeeds, and the
applied allocation is forced to 100 percent latest even with skipTrafficShift
set, discarding the existing traffic split. -/
theorem sync_probe_error_create_path (env : SyncEnv) (cfg : SyncStageCfg)
    (m : ManifestService) (e : String) (res : DeployResult)
    (hp : env.parseConfig = .ok cfg) (hskip : cfg.skipTrafficShift = true)
    (ht : env.hasDeployTarget = true) (hc : env.clientCreate = .ok ())
    (hm : env.readManifest = .ok m)
    (hn : resolveServiceName env.inputServiceName m ≠ "")
    (hg : env.getService = .error e)
    (hcu : env.createOrUpdate trafficLatest100 = .ok res)
    (hw : env.waitReady = .ok ()) :
    (executeSyncStage env).appliedTraffic = some trafficLatest100 ∧
    (executeSyncStage env).status = .success := by
  rw [executeSyncStage, hp, ht, hc, hm]
  simp only [Bool.not_true, Bool.false_eq_true, if_false, if_neg hn, hg, hcu, hw]
  by_cases hpr : cfg.prune
  · simp [hpr]
  · simp [hpr]

/-- Witness for C10: a transient probe error with skipTrafficShift set still
succeeds and overwrites the live 30/70 split with latest:100. -/
theorem sync_probe_error_create_path_witness :
    (executeSyncStage
      { parseConfig := .ok ⟨true, false⟩
        hasDeployTarget := true
        clientCreate := .ok ()
        readManifest := .ok ⟨some "app"⟩
        inputServiceName := "svc"
        getService := .error "transient read failure"
        createOrUpdate := fun _ => .ok ⟨"rev-3", "url"⟩
        waitReady := .ok ()
        cleanupRevisions := .ok []
        cleanupService := .ok ⟨none, []⟩
        deleteRev := fun _ => .ok () }).appliedTraffic =
      some trafficLatest100 ∧
    (executeSyncStage
      { parseConfig := .ok ⟨true, false⟩
        hasDeployTarget := true
        clientCreate := .ok ()
        readManifest := .ok ⟨some "app"⟩
        inputServiceName := "svc"
        getService := .error "transient read failure"
        createOrUpdate := fun _ => .ok ⟨"rev-3", "url"⟩
        waitReady := .ok ()
        cleanupRevisions := .ok []
        cleanupService := .ok ⟨none, []⟩
        deleteRev := fun _ => .ok () }).status = .success :=
  sync_probe_error_create_path
    { parseConfig := .ok ⟨true, false⟩
      hasDeployTarget := true
      clientCreate := .ok ()
      readManifest := .ok ⟨some "app"⟩
      inputServiceName := "svc"
      getService := .error "transient read failure"
      createOrUpdate := fun _ => .ok ⟨"rev-3", "url"⟩
      waitReady := .ok ()
      cleanupRevisions := .ok []
      cleanupService := .ok ⟨none, []⟩
      deleteRev := fun _ => .ok () }
    ⟨true, false⟩ ⟨some "app"⟩ "transient read failure" ⟨"rev-3", "url"⟩
    rfl rfl rfl rfl rfl (by decide) rfl rfl rfl

/-- CanaryCleanupStageConfig (stages.go). -/
structure CleanupStageCfg where
  keepCount : Nat
  keepLatest : Bool
  deriving DecidableEq, Repr

/-- Results of the host and remote calls the cleanup stage makes. -/
structure CleanupEnv where
  parseConfig : Except String CleanupStageCfg
  hasDeployTarget : Bool
  clientCreate : Except String Unit
  listRevisions : Except String (List Revision)
  getService : Except String ServiceState
  deleteRev : String → Except String Unit

/-- ExecuteCanaryCleanupStage (stage_cleanup.go): parse the stage config,
require a deploy target, create the client, list the revisions for display
(failure aborts), run CleanupOldRevisions and fail when it fails. -/
def executeCleanupStage (env : CleanupEnv) : StageStatus × List String :=
  match env.parseConfig with
  | .error _ => (.failure, [])
  | .ok cfg =>
    if !env.hasDeployTarget then (.failure, [])
    else
      match env.clientCreate with
      | .error _ => (.failure, [])
      | .ok _ =>
        match env.listRevisions with
        | .error _ => (.failure, [])
        | .ok _ =>
          match env.getService with
          | .error _ => (.failure, [])
          | .ok _ =>
            let r := cleanupOldRevisionsCall env.listRevisions env.getService
              cfg.keepCount cfg.keepLatest env.deleteRev
            match r.2 with
            | some _ => (.failure, r.1)
            | none => (.success, r.1)

/-- C7: the error-suppression asymmetry. A failing prune inside the sync stage
leaves the sync stage successful; inside cleanup, zero-traffic skips are never
an error (all issued deletes succeeding means no error), a delete failure ends
the deletions at the failing revision and surfaces its error, and the cleanup
stage propagates that error as stage failure. -/
theorem error_suppression_asymmetry :
    (∀ (env : SyncEnv) (cfg : SyncStageCfg) (m : ManifestService)
      (res : DeployResult), env.parseConfig = .ok cfg → cfg.prune = true →
      env.hasDeployTarget = true → env.clientCreate = .ok () →
      env.readManifest = .ok m →
      resolveServiceName env.inputServiceName m ≠ "" →
      (∀ t, env.createOrUpdate t = .ok res) → env.waitReady = .ok () →
      (cleanupOldRevisionsCall env.cleanupRevisions env.cleanupService 5 true
        env.deleteRev).2.isSome →
      (executeSyncStage env).status = .success) ∧
    (∀ (revs : List Revision) (svc : ServiceState) (kc : Nat) (kl : Bool)
      (d : String → Except String Unit), (∀ n, d n = .ok ()) →
      (cleanupOldRevisions revs svc kc kl d).2 = none) ∧
    (∀ (revs : List Revision) (svc : ServiceState) (kc : Nat) (kl : Bool)
      (d : String → Except String Unit) (err : String),
      (cleanupOldRevisions revs svc kc kl d).2 = some err →
      ∃ pre n e, (cleanupOldRevisions revs svc kc kl d).1 = pre ++ [n] ∧
        d n = .error e ∧ (∀ m ∈ pre, d m = .ok ()) ∧
        err = "failed to delete revision " ++ n ++ ": " ++ e) ∧
    (∀ (env : CleanupEnv) (cfg : CleanupStageCfg) (revs : List Revision)
      (svc : ServiceState), env.parseConfig = .ok cfg →
      env.hasDeployTarget = true → env.clientCreate = .ok () →
      env.listRevisions = .ok revs → env.getService = .ok svc →
      (cleanupOldRevisions revs svc cfg.keepCount cfg.keepLatest
        env.deleteRev).2.isSome →
      (executeCleanupStage env).1 = .failure) := by
  refine ⟨?_, ?_, ?_, ?_⟩
  · intro env cfg m res hp hprune ht hc hm hn hcu hw _
    rw [executeSyncStage, hp, ht, hc, hm]
    simp only [Bool.not_true, Bool.false_eq_true, if_false, if_neg hn]
    cases env.getService with
    | error e => simp [hcu, hw, hprune]
    | ok svc =>
      by_cases hskip : cfg.skipTrafficShift
      · simp [hskip, hcu, hw, hprune]
      · simp [hskip, hcu, hw, hprune]
  · intro revs svc kc kl d hok
    by_cases hle : (listRevisionInfos revs svc).length ≤ kc
    · rw [cleanupOldRevisions]
      simp [if_pos hle]
    · rw [cleanupOldRevisions]
      simp only [if_neg hle]
      rw [cleanupLoop_eq_processDeletes]
      exact processDeletes_all_ok d _ (fun n _ => hok n)
  · intro revs svc kc kl d err herr
    by_cases hle : (listRevisionInfos revs svc).length ≤ kc
    · rw [cleanupOldRevisions] at herr
      simp [if_pos hle] at herr
    · have hrun : cleanupOldRevisions revs svc kc kl d =
          cleanupLoop d kc kl (svc.templateRevision.getD "") 0
            (listRevisionInfos revs svc) := by
        rw [cleanupOldRevisions]
        simp [if_neg hle]
      rw [hrun, cleanupLoop_eq_processDeletes] at herr ⊢
      exact processDeletes_error_char d _ err herr
  · intro env cfg revs svc hp ht hc hl hg hsome
    rw [executeCleanupStage, hp, ht, hc, hl, hg]
    simp only [Bool.not_true, Bool.false_eq_true, if_false]
    obtain ⟨err, herr⟩ := Option.isSome_iff_exists.mp (by
      simpa [cleanupOldRevisionsCall] using hsome)
    simp only [cleanupOldRevisionsCall, herr]

/-- Witness for C7: with six revisions and a failing delete call, the sync
stage with prune set still succeeds, while the dedicated cleanup stage fails. -/
theorem error_suppression_asymmetry_witness :
    (executeSyncStage
      { parseConfig := .ok ⟨false, true⟩
        hasDeployTarget := true
        clientCreate := .ok ()
        readManifest := .ok ⟨some "app"⟩
        inputServiceName := "svc"
        getService := .error "absent"
        createOrUpdate := fun _ => .ok ⟨"rev-7", "url"⟩
        waitReady := .ok ()
        cleanupRevisions := .ok [⟨"rev-1", some 1⟩, ⟨"rev-2", some 2⟩,
          ⟨"rev-3", some 3⟩, ⟨"rev-4", some 4⟩, ⟨"rev-5", some 5⟩,
          ⟨"rev-6", some 6⟩]
        cleanupService := .ok ⟨some "rev-6", [⟨.latest, "", 100⟩]⟩
        deleteRev := fun _ => .error "quota" }).status = .success ∧
    (executeCleanupStage
      { parseConfig := .ok ⟨5, true⟩
        hasDeployTarget := true
        clientCreate := .ok ()
        listRevisions := .ok [⟨"rev-1", some 1⟩, ⟨"rev-2", some 2⟩,
          ⟨"rev-3", some 3⟩, ⟨"rev-4", some 4⟩, ⟨"rev-5", some 5⟩,
          ⟨"rev-6", some 6⟩]
        getService := .ok ⟨some "rev-6", [⟨.latest, "", 100⟩]⟩
        deleteRev := fun _ => .error "quota" }).1 = .failure :=
  ⟨error_suppression_asymmetry.1
    { parseConfig := .ok ⟨false, true⟩
      hasDeployTarget := true
      clientCreate := .ok ()
      readManifest := .ok ⟨some "app"⟩
      inputServiceName := "svc"
      getService := .error "absent"
      createOrUpdate := fun _ => .ok ⟨"rev-7", "url"⟩
      waitReady := .ok ()
      cleanupRevisions := .ok [⟨"rev-1", some 1⟩, ⟨"rev-2", some 2⟩,
        ⟨"rev-3", some 3⟩, ⟨"rev-4", some 4⟩, ⟨"rev-5", some 5⟩,
        ⟨"rev-6", some 6⟩]
      cleanupService := .ok ⟨some "rev-6", [⟨.latest, "", 100⟩]⟩
      deleteRev := fun _ => .error "quota" }
    ⟨false, true⟩ ⟨some "app"⟩ ⟨"rev-7", "url"⟩ rfl rfl rfl rfl rfl
    (by decide) (fun _ => rfl) rfl (by decide),
  error_suppression_asymmetry.2.2.2
    { parseConfig := .ok ⟨5, true⟩
      hasDeployTarget := true
      clientCreate := .ok ()
      listRevisions := .ok [⟨"rev-1", some 1⟩, ⟨"rev-2", some 2⟩,
        ⟨"rev-3", some 3⟩, ⟨"rev-4", some 4⟩, ⟨"rev-5", some 5⟩,
        ⟨"rev-6", some 6⟩]
      getService := .ok ⟨some "rev-6", [⟨.latest, "", 100⟩]⟩
      deleteRev := fun _ => .error "quota" }
    ⟨5, true⟩
    [⟨"rev-1", some 1⟩, ⟨"rev-2", some 2⟩, ⟨"rev-3", some 3⟩,
      ⟨"rev-4", some 4⟩, ⟨"rev-5", some 5⟩, ⟨"rev-6", some 6⟩]
    ⟨some "rev-6", [⟨.latest, "", 100⟩]⟩
    rfl rfl rfl rfl rfl (by decide)⟩

/-- PromoteStageConfig (stages.go). -/
structure PromoteStageCfg where
  percent : Int
  deriving DecidableEq, Repr

/-- Results of the host and remote calls the promote stage makes, in program
order. The two warn-only GetCurrentTraffic logging reads do not influence the
outcome and are not modelled. -/
structure PromoteEnv where
  parseConfig : Except String PromoteStageCfg
  hasDeployTarget : Bool
  clientCreate : Except String Unit
  getService : Except String ServiceState
  listRevisions : Except String (List Revision)
  updateTraffic : List TrafficTarget → Except String Unit

/-- Observable outcome of the promote stage: status, whether the platform
client was created, the allocation passed to UpdateTraffic when the write was
attempted, and the surfaced error. -/
structure PromoteOutcome where
  status : StageStatus
  clientCreated : Bool
  trafficWritten : Option (List TrafficTarget)
  errorMessage : Option String
  deriving DecidableEq, Repr

/-- ExecutePromoteStage (stage_promote.go): parse the stage config, validate
the percentage before anything else after parsing, require a deploy target,
create the client, and run the Promote call. -/
def executePromoteStage (env : PromoteEnv) : PromoteOutcome :=
  match env.parseConfig with
  | .error e => ⟨.failure, false, none, some e⟩
  | .ok cfg =>
    if cfg.percent < 0 ∨ cfg.percent > 100 then
      ⟨.failure, false, none,
        some ("invalid traffic percentage: " ++ toString cfg.percent)⟩
    else if !env.hasDeployTarget then
      ⟨.failure, false, none, some "no deploy targets configured"⟩
    else
      match env.clientCreate with
      | .error e => ⟨.failure, false, none, some e⟩
      | .ok _ =>
        let r := PromoteCall env.getService env.listRevisions
          env.updateTraffic cfg.percent
        match r.1 with
        | .error e => ⟨.failure, true, r.2, some e⟩
        | .ok _ => ⟨.success, true, r.2, none⟩

/-- C6: a promote request with a percentage outside [0,100] fails with the
configuration error before the platform client is created and before any
traffic write is attempted. -/
theorem promote_out_of_range_rejected (env : PromoteEnv)
    (cfg : PromoteStageCfg) (hp : env.parseConfig = .ok cfg)
    (hr : cfg.percent < 0 ∨ cfg.percent > 100) :
    executePromoteStage env =
      ⟨.failure, false, none,
        some ("invalid traffic percentage: " ++ toString cfg.percent)⟩ := by
  rw [executePromoteStage, hp]
  simp [if_pos hr]

/-- Witness for C6 at percentages -1 and 101. -/
theorem promote_out_of_range_rejected_witness :
    executePromoteStage
      { parseConfig := .ok ⟨-1⟩
        hasDeployTarget := true
        clientCreate := .ok ()
        getService := .ok ⟨some "rev-2", trafficLatest100⟩
        listRevisions := .ok [⟨"rev-1", some 1⟩, ⟨"rev-2", some 2⟩]
        updateTraffic := fun _ => .ok () } =
      ⟨.failure, false, none, some ("invalid traffic percentage: " ++
        toString (-1 : Int))⟩ ∧
    executePromoteStage
      { parseConfig := .ok ⟨101⟩
        hasDeployTarget := true
        clientCreate := .ok ()
        getService := .ok ⟨some "rev-2", trafficLatest100⟩
        listRevisions := .ok [⟨"rev-1", some 1⟩, ⟨"rev-2", some 2⟩]
        updateTraffic := fun _ => .ok () } =
      ⟨.failure, false, none, some ("invalid traffic percentage: " ++
        toString (101 : Int))⟩ :=
  ⟨promote_out_of_range_rejected
    { parseConfig := .ok ⟨-1⟩
      hasDeployTarget := true
      clientCreate := .ok ()
      getService := .ok ⟨some "rev-2", trafficLatest100⟩
      listRevisions := .ok [⟨"rev-1", some 1⟩, ⟨"rev-2", some 2⟩]
      updateTraffic := fun _ => .ok () } ⟨-1⟩ rfl (by decide),
  promote_out_of_range_rejected
    { parseConfig := .ok ⟨101⟩
      hasDeployTarget := true
      clientCreate := .ok ()
      getService := .ok ⟨some "rev-2", trafficLatest100⟩
      listRevisions := .ok [⟨"rev-1", some 1⟩, ⟨"rev-2", some 2⟩]
      updateTraffic := fun _ => .ok () } ⟨101⟩ rfl (by decide)⟩

/-- RollbackStageConfig (stages.go): empty revision means previous revision. -/
structure RollbackStageCfg where
  revision : String
  deriving DecidableEq, Repr

/-- The single-target allocation TrafficManager.Rollback writes (traffic.go):
100 percent pinned to the named revision. -/
def rollbackTraffic (revision : String) : List TrafficTarget :=
  [⟨.revision, revision, 100⟩]

/-- RevisionManager.GetPreviousRevision (revision.go): the second entry of the
annotated newest-first revision list, an error with fewer than two. -/
def getPreviousRevisionCall (listRes : Except String (List Revision))
    (svcRes : Except String ServiceState) : Except String RevisionInfo :=
  match listRes with
  | .error e => .error e
  | .ok revs =>
    match svcRes with
    | .error e => .error e
    | .ok svc =>
      match listRevisionInfos revs svc with
      | _ :: prev :: _ => .ok prev
      | _ => .error "no previous revision found"

/-- Results of the host and remote calls the rollback stage makes. The
warn-only GetRevision logging read does not influence the outcome and is not
modelled. -/
structure RollbackEnv where
  parseConfig : Except String RollbackStageCfg
  hasDeployTarget : Bool
  clientCreate : Except String Unit
  listRevisions : Except String (List Revision)
  getService : Except String ServiceState
  updateTraffic : List TrafficTarget → Except String Unit

/-- Observable outcome of the rollback stage: status and the allocation passed
to UpdateTraffic when the write was attempted. -/
structure RollbackOutcome where
  status : StageStatus
  trafficWritten : Option (List TrafficTarget)
  deriving DecidableEq, Repr

/-- ExecuteRollbackStage (stage_rollback.go): parse the stage config, require
a deploy target, create the client, resolve the target revision (the
configured name verbatim, otherwise the previous revision), and write the
pinned single-target allocation. -/
def executeRollbackStage (env : RollbackEnv) : RollbackOutcome :=
  match env.parseConfig with
  | .error _ => ⟨.failure, none⟩
  | .ok cfg =>
    if !env.hasDeployTarget then ⟨.failure, none⟩
    else
      match env.clientCreate with
      | .error _ => ⟨.failure, none⟩
      | .ok _ =>
        let target :=
          if cfg.revision ≠ "" then .ok cfg.revision
          else (getPreviousRevisionCall env.listRevisions env.getService).map
            (fun prev => prev.name)
        match target with
        | .error _ => ⟨.failure, none⟩
        | .ok targetRevision =>
          let t := rollbackTraffic targetRevision
          match env.updateTraffic t with
          | .error _ => ⟨.failure, some t⟩
          | .ok _ => ⟨.success, some t⟩

lemma rollback_written_shape (env : RollbackEnv) :
    (executeRollbackStage env).trafficWritten = none ∨
    ∃ r, (executeRollbackStage env).trafficWritten =
      some (rollbackTraffic r) := by
  unfold executeRollbackStage
  cases env.parseConfig with
  | error e => left; rfl
  | ok cfg =>
    cases henv : env.hasDeployTarget with
    | false => left; simp
    | true =>
      simp only [Bool.not_true, Bool.false_eq_true, if_false]
      cases env.clientCreate with
      | error e => left; rfl
      | ok u =>
        by_cases hr : cfg.revision ≠ ""
        · cases hu : env.updateTraffic (rollbackTraffic cfg.revision) with
          | error e =>
            right
            exact ⟨cfg.revision, by simp [hr, hu]⟩
          | ok u2 =>
            right
            exact ⟨cfg.revision, by simp [hr, hu]⟩
        · simp only [if_neg hr]
          cases getPreviousRevisionCall env.listRevisions env.getService with
          | error e => left; simp [Except.map]
          | ok prev =>
            cases hu : env.updateTraffic (rollbackTraffic prev.name) with
            | error e =>
              right
              exact ⟨prev.name, by simp [Except.map, hu]⟩
            | ok u2 =>
              right
              exact ⟨prev.name, by simp [Except.map, hu]⟩

/-- C5: every allocation the rollback stage writes is a single target of 100
percent pinned to a named revision, never a latest-type target; and with no
configured revision name, the pinned revision is the second-most-recent
revision by creation time. -/
theorem rollback_pins_previous_revision :
    (∀ (env : RollbackEnv) (t : List TrafficTarget),
      (executeRollbackStage env).trafficWritten = some t →
      ∃ r, t = [⟨.revision, r, 100⟩]) ∧
    (∀ (env : RollbackEnv) (cfg : RollbackStageCfg) (revs : List Revision)
      (svc : ServiceState), env.parseConfig = .ok cfg → cfg.revision = "" →
      env.hasDeployTarget = true → env.clientCreate = .ok () →
      env.listRevisions = .ok revs → env.getService = .ok svc →
      2 ≤ revs.length →
      (revs.map (fun r => r.createTime.getD 0)).Nodup →
      ∃ prev : RevisionInfo,
        (executeRollbackStage env).trafficWritten =
          some (rollbackTraffic prev.name) ∧
        (∃ r ∈ revs, r.name = prev.name ∧
          r.createTime.getD 0 = prev.createdAt) ∧
        revs.countP
          (fun r => decide (prev.createdAt < r.createTime.getD 0)) = 1) := by
  constructor
  · intro env t h
    rcases rollback_written_shape env with hw | ⟨r, hw⟩
    · rw [h] at hw
      exact absurd hw (by simp)
    · rw [h] at hw
      rw [Option.some.injEq] at hw
      exact ⟨r, hw⟩
  · intro env cfg revs svc hp hrev ht hc hl hg hlen hnd
    have hlen2 : 2 ≤ (listRevisionInfos revs svc).length := by
      rw [length_listRevisionInfos]
      exact hlen
    rcases hsort : listRevisionInfos revs svc with _ | ⟨x, t2⟩
    · rw [hsort] at hlen2
      simp at hlen2
    rcases t2 with _ | ⟨y, rest⟩
    · rw [hsort] at hlen2
      simp at hlen2
    have hndl : ((revs.map (buildRevisionInfo (svc.templateRevision.getD "")
        (buildTrafficMap (svc.templateRevision.getD "") svc.traffic))).map
        RevisionInfo.createdAt).Nodup := by
      rw [List.map_map]
      exact hnd
    have hsort2 : sortRevisionInfos (revs.map (buildRevisionInfo
        (svc.templateRevision.getD "")
        (buildTrafficMap (svc.templateRevision.getD "") svc.traffic))) =
        x :: y :: rest := by
      simpa [listRevisionInfos] using hsort
    have hsec := second_newest_of_sortInfos _ hndl x y rest hsort2
    refine ⟨y, ?_, ?_, ?_⟩
    · rw [executeRollbackStage, hp]
      simp only [ht, Bool.not_true, Bool.false_eq_true, if_false, hc]
      have hres : (if cfg.revision ≠ "" then Except.ok cfg.revision
          else (getPreviousRevisionCall env.listRevisions
            env.getService).map (fun prev => prev.name)) = .ok y.name := by
        rw [hrev]
        simp only [ne_eq, not_true_eq_false, if_false]
        rw [hl, hg]
        simp [getPreviousRevisionCall, hsort, Except.map]
      rw [hres]
      cases hu : env.updateTraffic (rollbackTraffic y.name) with
      | error e => simp [hu]
      | ok u => simp [hu]
    · obtain ⟨r, hr, hbe⟩ := List.mem_map.mp hsec.1
      exact ⟨r, hr, by rw [← hbe]; exact ⟨rfl, rfl⟩⟩
    · have := hsec.2
      rw [List.countP_map] at this
      simpa [Function.comp, buildRevisionInfo] using this

/-- Witness for C5: two revisions, empty configured revision; the write pins
rev-1, the second newest, at 100. -/
theorem rollback_pins_previous_revision_witness :
    ∃ prev : RevisionInfo,
      (executeRollbackStage
        { parseConfig := .ok ⟨""⟩
          hasDeployTarget := true
          clientCreate := .ok ()
          listRevisions := .ok [⟨"rev-1", some 1⟩, ⟨"rev-2", some 2⟩]
          getService := .ok ⟨some "rev-2", trafficLatest100⟩
          updateTraffic := fun _ => .ok () }).trafficWritten =
        some (rollbackTraffic prev.name) ∧
      (∃ r ∈ [(⟨"rev-1", some 1⟩ : Revision), ⟨"rev-2", some 2⟩],
        r.name = prev.name ∧ r.createTime.getD 0 = prev.createdAt) ∧
      List.countP (fun r => decide (prev.createdAt < r.createTime.getD 0))
        [(⟨"rev-1", some 1⟩ : Revision), ⟨"rev-2", some 2⟩] = 1 :=
  rollback_pins_previous_revision.2
    { parseConfig := .ok ⟨""⟩
      hasDeployTarget := true
      clientCreate := .ok ()
      listRevisions := .ok [⟨"rev-1", some 1⟩, ⟨"rev-2", some 2⟩]
      getService := .ok ⟨some "rev-2", trafficLatest100⟩
      updateTraffic := fun _ => .ok () }
    ⟨""⟩ [⟨"rev-1", some 1⟩, ⟨"rev-2", some 2⟩]
    ⟨some "rev-2", trafficLatest100⟩
    rfl rfl rfl rfl rfl rfl (by decide) (by decide)

/-- getTrafficKey (plan_preview.go): a latest target is keyed "latest", any
other target by its revision name. -/
def getTrafficKey (t : TrafficTarget) : String :=
  match t.type with
  | .latest => "latest"
  | .revision => t.revision

/-- The comparison map of hasTrafficChanges (plan_preview.go): key every
target by getTrafficKey, later duplicates overwriting earlier ones. -/
def toTrafficMap (ts : List TrafficTarget) : List (String × Int) :=
  ts.foldl (fun m t => upsert m (getTrafficKey t) t.percent) []

/-- hasTrafficChanges (plan_preview.go): report a change when the target
counts differ, the map sizes differ, or some key of the current map reads a
different percentage from the desired map, a missing key reading as 0. -/
def hasTrafficChanges (current desired : List TrafficTarget) : Bool :=
  if current.length ≠ desired.length then true
  else
    let currentMap := toTrafficMap current
    let desiredMap := toTrafficMap desired
    if currentMap.length ≠ desiredMap.length then true
    else currentMap.any (fun kv => decide (alistGetD desiredMap kv.1 ≠ kv.2))

lemma alistLookup_append_of_none (m1 m2 : List (String × Int)) (k : String)
    (h : alistLookup m1 k = none) :
    alistLookup (m1 ++ m2) k = alistLookup m2 k := by
  induction m1 with
  | nil => rfl
  | cons kv rest ih =>
    obtain ⟨k0, v0⟩ := kv
    rw [alistLookup] at h
    by_cases hk : k0 = k
    · rw [if_pos hk] at h
      exact absurd h (by simp)
    · rw [if_neg hk] at h
      rw [List.cons_append, alistLookup, if_neg hk]
      exact ih h

lemma upsert_of_lookup_none (m : List (String × Int)) (k : String) (v : Int)
    (h : alistLookup m k = none) : upsert m k v = m ++ [(k, v)] := by
  induction m with
  | nil => rfl
  | cons kv rest ih =>
    obtain ⟨k0, v0⟩ := kv
    rw [alistLookup] at h
    by_cases hk : k0 = k
    · rw [if_pos hk] at h
      exact absurd h (by simp)
    · rw [if_neg hk] at h
      rw [upsert, if_neg hk, List.cons_append, ih h]

lemma foldl_upsert_eq_append (ts : List TrafficTarget) :
    ∀ m : List (String × Int),
    (∀ t ∈ ts, alistLookup m (getTrafficKey t) = none) →
    (ts.map getTrafficKey).Nodup →
    ts.foldl (fun m t => upsert m (getTrafficKey t) t.percent) m =
      m ++ ts.map (fun t => (getTrafficKey t, t.percent)) := by
  induction ts with
  | nil => intro m _ _; simp
  | cons t rest ih =>
    intro m hfresh hnd
    rw [List.foldl_cons]
    rw [upsert_of_lookup_none m (getTrafficKey t) t.percent
      (hfresh t (by simp))]
    rw [List.map_cons, List.nodup_cons] at hnd
    have hfresh2 : ∀ u ∈ rest,
        alistLookup (m ++ [(getTrafficKey t, t.percent)])
          (getTrafficKey u) = none := by
      intro u hu
      rw [alistLookup_append_of_none _ _ _ (hfresh u (by simp [hu]))]
      have hne : getTrafficKey t ≠ getTrafficKey u := by
        intro he
        exact hnd.1 (he ▸ List.mem_map_of_mem getTrafficKey hu)
      rw [alistLookup, if_neg hne]
      rfl
    rw [ih _ hfresh2 hnd.2]
    simp

lemma toTrafficMap_eq_map (ts : List TrafficTarget)
    (hnd : (ts.map getTrafficKey).Nodup) :
    toTrafficMap ts = ts.map (fun t => (getTrafficKey t, t.percent)) := by
  rw [toTrafficMap, foldl_upsert_eq_append ts [] (fun t _ => rfl) hnd]
  rfl

lemma alistLookup_map_pair_some (ts : List TrafficTarget)
    (hnd : (ts.map getTrafficKey).Nodup) (t : TrafficTarget) (ht : t ∈ ts) :
    alistLookup (ts.map (fun u => (getTrafficKey u, u.percent)))
      (getTrafficKey t) = some t.percent := by
  induction ts with
  | nil => simp at ht
  | cons u rest ih =>
    rw [List.map_cons, List.nodup_cons] at hnd
    rw [List.mem_cons] at ht
    rcases ht with ht | ht
    · subst ht
      rw [List.map_cons, alistLookup, if_pos rfl]
    · have hne : getTrafficKey u ≠ getTrafficKey t := by
        intro he
        exact hnd.1 (he ▸ List.mem_map_of_mem getTrafficKey ht)
      rw [List.map_cons, alistLookup, if_neg hne]
      exact ih hnd.2 ht

lemma alistLookup_map_pair_some_inv (ts : List TrafficTarget) (k : String)
    (v : Int)
    (h : alistLookup (ts.map (fun u => (getTrafficKey u, u.percent))) k =
      some v) : ∃ t ∈ ts, getTrafficKey t = k ∧ t.percent = v := by
  induction ts with
  | nil => simp [alistLookup] at h
  | cons u rest ih =>
    rw [List.map_cons, alistLookup] at h
    by_cases hk : getTrafficKey u = k
    · rw [if_pos hk] at h
      rw [Option.some.injEq] at h
      exact ⟨u, by simp, hk, h⟩
    · rw [if_neg hk] at h
      obtain ⟨t, ht, hkt, hv⟩ := ih h
      exact ⟨t, by simp [ht], hkt, hv⟩

lemma alistLookup_map_pair_none_iff (ts : List TrafficTarget) (k : String) :
    alistLookup (ts.map (fun u => (getTrafficKey u, u.percent))) k = none ↔
      k ∉ ts.map getTrafficKey := by
  induction ts with
  | nil => simp [alistLookup]
  | cons u rest ih =>
    rw [List.map_cons, alistLookup]
    by_cases hk : getTrafficKey u = k
    · rw [if_pos hk]
      simp [hk]
    · rw [if_neg hk]
      simp only [List.map_cons, List.mem_cons]
      rw [ih]
      constructor
      · intro h hmem
        rcases hmem with hmem | hmem
        · exact hk hmem.symm
        · exact h hmem
      · intro h hmem
        exact h (Or.inr hmem)

/-- Counterexample to C8 as stated: the allocations rev-a:0 and rev-b:0 have
unequal key-to-percentage maps (they disagree at key rev-a), yet
hasTrafficChanges reports no change, because a key missing from the desired
map reads as the zero value 0. -/
theorem hasTrafficChanges_map_counterexample :
    hasTrafficChanges [⟨.revision, "rev-a", 0⟩] [⟨.revision, "rev-b", 0⟩] =
      false ∧
    alistLookup (toTrafficMap [⟨.revision, "rev-a", 0⟩]) "rev-a" ≠
      alistLookup (toTrafficMap [⟨.revision, "rev-b", 0⟩]) "rev-a" := by
  constructor
  · decide
  · decide

/-- C8 amended: the diff is order-independent and size-sensitive, and under
distinct keys within each allocation and nonzero percentages in the current
allocation it reports a change exactly when the key-to-percentage maps are
unequal; a key carried only by the current allocation at 0 percent reads as
matching the desired map default 0 and can hide a map difference. -/
theorem hasTrafficChanges_iff_map_eq (c d : List TrafficTarget)
    (hc : (c.map getTrafficKey).Nodup) (hd : (d.map getTrafficKey).Nodup)
    (hnz : ∀ t ∈ c, t.percent ≠ 0) :
    hasTrafficChanges c d = false ↔
      ∀ k, alistLookup (toTrafficMap c) k = alistLookup (toTrafficMap d) k := by
  have hmc := toTrafficMap_eq_map c hc
  have hmd := toTrafficMap_eq_map d hd
  constructor
  · intro h
    simp only [hasTrafficChanges] at h
    by_cases hlen : c.length ≠ d.length
    · rw [if_pos hlen] at h
      exact absurd h (by simp)
    · rw [if_neg hlen] at h
      by_cases hmlen : (toTrafficMap c).length ≠ (toTrafficMap d).length
      · rw [if_pos hmlen] at h
        exact absurd h (by simp)
      · rw [if_neg hmlen] at h
        have hany : ∀ kv ∈ toTrafficMap c,
            alistGetD (toTrafficMap d) kv.1 = kv.2 := by
          intro kv hkv
          rw [List.any_eq_false] at h
          have := h kv hkv
          simpa using this
        intro k
        cases hck : alistLookup (toTrafficMap c) k with
        | some v =>
          rw [hmc] at hck
          obtain ⟨t, ht, hkt, hpv⟩ := alistLookup_map_pair_some_inv c k v hck
          have hkv_mem : ((k, v) : String × Int) ∈ toTrafficMap c := by
            rw [hmc, ← hkt, ← hpv]
            exact List.mem_map_of_mem _ ht
          have hgd : alistGetD (toTrafficMap d) k = v := hany (k, v) hkv_mem
          have hvnz : v ≠ 0 := hpv ▸ hnz t ht
          cases hdk : alistLookup (toTrafficMap d) k with
          | none =>
            rw [alistGetD, hdk] at hgd
            simp at hgd
            exact absurd hgd.symm hvnz
          | some w =>
            rw [alistGetD, hdk] at hgd
            simp at hgd
            rw [hgd]
        | none =>
          rw [hmc] at hck
          have hkc : k ∉ c.map getTrafficKey :=
            (alistLookup_map_pair_none_iff c k).mp hck
          have hsub : ∀ k' ∈ c.map getTrafficKey, k' ∈ d.map getTrafficKey := by
            intro k' hk'
            obtain ⟨t, ht, hkt⟩ := List.mem_map.mp hk'
            subst hkt
            have hmem : ((getTrafficKey t, t.percent) : String × Int) ∈
                toTrafficMap c := by
              rw [hmc]
              exact List.mem_map_of_mem _ ht
            have hgd := hany (getTrafficKey t, t.percent) hmem
            by_contra hnot
            have hnone : alistLookup (toTrafficMap d) (getTrafficKey t) =
                none := by
              rw [hmd]
              exact (alistLookup_map_pair_none_iff d _).mpr hnot
            rw [alistGetD, hnone] at hgd
            simp at hgd
            exact hnz t ht hgd.symm
          have hfin : (c.map getTrafficKey).toFinset =
              (d.map getTrafficKey).toFinset := by
            apply Finset.eq_of_subset_of_card_le
            · intro k' hk'
              rw [List.mem_toFinset] at hk' ⊢
              exact hsub k' hk'
            · rw [List.toFinset_card_of_nodup hc, List.toFinset_card_of_nodup hd,
                List.length_map, List.length_map]
              omega
          have hkd : k ∉ d.map getTrafficKey := by
            intro hmem
            apply hkc
            rw [← List.mem_toFinset, ← hfin] at hmem
            exact List.mem_toFinset.mp hmem
          rw [hmd]
          exact ((alistLookup_map_pair_none_iff d k).mpr hkd).symm
  · intro h
    simp only [hasTrafficChanges]
    have hkeys : ∀ k, k ∈ c.map getTrafficKey ↔ k ∈ d.map getTrafficKey := by
      intro k
      constructor
      · intro hk
        by_contra hnk
        have h1 : alistLookup (toTrafficMap d) k = none := by
          rw [hmd]
          exact (alistLookup_map_pair_none_iff d k).mpr hnk
        have h2 : alistLookup (toTrafficMap c) k ≠ none := by
          rw [hmc]
          intro hn
          exact (alistLookup_map_pair_none_iff c k).mp hn hk
        rw [h k] at h2
        exact h2 h1
      · intro hk
        by_contra hnk
        have h1 : alistLookup (toTrafficMap c) k = none := by
          rw [hmc]
          exact (alistLookup_map_pair_none_iff c k).mpr hnk
        have h2 : alistLookup (toTrafficMap d) k ≠ none := by
          rw [hmd]
          intro hn
          exact (alistLookup_map_pair_none_iff d k).mp hn hk
        rw [← h k] at h2
        exact h2 h1
    have hfin : (c.map getTrafficKey).toFinset =
        (d.map getTrafficKey).toFinset := by
      apply Finset.ext
      intro k
      rw [List.mem_toFinset, List.mem_toFinset]
      exact hkeys k
    have hlen : c.length = d.length := by
      have hcard := congrArg Finset.card hfin
      rw [List.toFinset_card_of_nodup hc, List.toFinset_card_of_nodup hd,
        List.length_map, List.length_map] at hcard
      exact hcard
    have hmlen : (toTrafficMap c).length = (toTrafficMap d).length := by
      rw [hmc, hmd, List.length_map, List.length_map]
      exact hlen
    rw [if_neg (not_ne_iff.mpr hlen), if_neg (not_ne_iff.mpr hmlen)]
    rw [List.any_eq_false]
    intro kv hkv
    rw [hmc] at hkv
    obtain ⟨t, ht, hpair⟩ := List.mem_map.mp hkv
    have hlookc : alistLookup (toTrafficMap c) (getTrafficKey t) =
        some t.percent := by
      rw [hmc]
      exact alistLookup_map_pair_some c hc t ht
    have hlookd : alistLookup (toTrafficMap d) (getTrafficKey t) =
        some t.percent := by
      rw [← h]
      exact hlookc
    rw [← hpair]
    simp [alistGetD, hlookd]

/-- Witness for C8 amended: permuting the targets of a 50/50 split is not
reported as a change. -/
theorem hasTrafficChanges_iff_map_eq_witness :
    hasTrafficChanges [⟨.latest, "", 50⟩, ⟨.revision, "rev-a", 50⟩]
      [⟨.revision, "rev-a", 50⟩, ⟨.latest, "", 50⟩] = false := by
  apply (hasTrafficChanges_iff_map_eq
    [⟨.latest, "", 50⟩, ⟨.revision, "rev-a", 50⟩]
    [⟨.revision, "rev-a", 50⟩, ⟨.latest, "", 50⟩]
    (by decide) (by decide) (by decide)).mpr
  intro k
  have h1 : toTrafficMap [⟨.latest, "", 50⟩, ⟨.revision, "rev-a", 50⟩] =
      [("latest", 50), ("rev-a", 50)] := by decide
  have h2 : toTrafficMap [⟨.revision, "rev-a", 50⟩, ⟨.latest, "", 50⟩] =
      [("rev-a", 50), ("latest", 50)] := by decide
  rw [h1, h2]
  simp only [alistLookup]
  by_cases ha : "latest" = k <;> by_cases hb : "rev-a" = k <;>
    simp [ha, hb]

/-- A pipeline stage declaration of the application config. -/
structure PipelineStageDecl where
  name : String
  deriving DecidableEq, Repr

/-- PipelineSyncConfig (config/application.go). -/
structure PipelineSyncCfg where
  stages : List PipelineStageDecl
  deriving DecidableEq, Repr

/-- QuickSyncConfig (config/application.go). -/
structure QuickSyncCfg where
  prune : Bool
  deriving DecidableEq, Repr

/-- The application spec fields (config/application.go): DetermineStrategy
consults only the pipelineSync section, which is where a stage list is
declared. -/
structure AppSpec where
  name : String
  serviceManifestPath : String
  serviceName : String
  image : String
  quickSync : Option QuickSyncCfg
  pipelineSync : Option PipelineSyncCfg
  deriving DecidableEq, Repr

/-- The two deployment strategies of the SDK. -/
inductive SyncStrategy
  | quickSync
  | pipelineSync
  deriving DecidableEq, Repr

/-- DetermineStrategy (plugin.go): PipelineSync when the spec carries a
pipelineSync section, QuickSync otherwise. -/
def DetermineStrategy (spec : AppSpec) : SyncStrategy :=
  match spec.pipelineSync with
  | some _ => .pipelineSync
  | none => .quickSync

/-- C9: DetermineStrategy returns PipelineSync exactly when the spec declares
the pipelineSync stage-list section, QuickSync otherwise, and no field other
than pipelineSync influences the choice. -/
theorem determineStrategy_iff :
    (∀ spec : AppSpec,
      DetermineStrategy spec = .pipelineSync ↔ spec.pipelineSync.isSome) ∧
    (∀ spec : AppSpec,
      DetermineStrategy spec = .quickSync ↔ spec.pipelineSync = none) ∧
    (∀ s1 s2 : AppSpec, s1.pipelineSync = s2.pipelineSync →
      DetermineStrategy s1 = DetermineStrategy s2) := by
  refine ⟨?_, ?_, ?_⟩
  · intro spec
    cases h : spec.pipelineSync <;> simp [DetermineStrategy, h]
  · intro spec
    cases h : spec.pipelineSync <;> simp [DetermineStrategy, h]
  · intro s1 s2 he
    simp only [DetermineStrategy, he]

/-- Witness for C9: two specs differing in every field but pipelineSync select
the same strategy, and a declared stage list selects PipelineSync. -/
theorem determineStrategy_iff_witness :
    DetermineStrategy ⟨"app-a", "service.yaml", "svc-a", "img:v1", none,
      some ⟨[⟨"CLOUDRUN_SYNC"⟩]⟩⟩ =
      DetermineStrategy ⟨"app-b", "other.yaml", "svc-b", "img:v2",
        some ⟨true⟩, some ⟨[⟨"CLOUDRUN_SYNC"⟩]⟩⟩ ∧
    DetermineStrategy ⟨"app-a", "service.yaml", "svc-a", "img:v1", none,
      some ⟨[⟨"CLOUDRUN_SYNC"⟩]⟩⟩ = .pipelineSync :=
  ⟨determineStrategy_iff.2.2
    ⟨"app-a", "service.yaml", "svc-a", "img:v1", none,
      some ⟨[⟨"CLOUDRUN_SYNC"⟩]⟩⟩
    ⟨"app-b", "other.yaml", "svc-b", "img:v2", some ⟨true⟩,
      some ⟨[⟨"CLOUDRUN_SYNC"⟩]⟩⟩ rfl,
  (determineStrategy_iff.1
    ⟨"app-a", "service.yaml", "svc-a", "img:v1", none,
      some ⟨[⟨"CLOUDRUN_SYNC"⟩]⟩⟩).mpr rfl⟩

end CloudRun
